import Mathlib

/-!
# MRCPP: tree bookkeeping, node allocator and HelmholtzOperator construction

A shallow embedding of

* `src/trees/SerialTree.cpp`  (the `SerialTree<D>` constructor),
* `src/trees/MWTree.h`        (the inline members of `MWTree<D>`),
* `src/operators/HelmholtzOperator.cpp` (both constructors),

followed by the properties proved about them.

Conventions of the embedding

* a C++ `int` is a mathematical integer in the range `INT_MIN .. INT_MAX`
  (the subtype `CInt`); the result of `int` arithmetic and of a narrowing
  conversion is brought back into that range by `toInt` (two's complement,
  32 bit);
* a C++ `double` is an exact rational number: no rounding is modelled, and no
  property that depends on rounding is stated;
* a pointer is `Option` of an address, `none` being `nullptr`;
* an operation that can fail returns `Except` or `Option`.
-/

namespace mrcpp

/-! ## Machine integers -/

/-- Smallest value of a C++ `int` (32 bit). -/
def INT_MIN : Int := -2147483648

/-- Largest value of a C++ `int` (32 bit). -/
def INT_MAX : Int := 2147483647

/-- Conversion of a mathematical integer to `int`: reduction modulo `2^32` into
`INT_MIN .. INT_MAX`. -/
def toInt (x : Int) : Int := (x + 2147483648) % 4294967296 - 2147483648

/-- The values of type `int`. -/
abbrev CInt : Type := { x : Int // INT_MIN ≤ x ∧ x ≤ INT_MAX }

/-- A raw pointer: `none` is `nullptr`, `some a` the address `a`. -/
abbrev Ptr : Type := Option Nat

/-! ## SerialTree / NodeAllocator -/

/-- Modelled from the spec: a node handle, the index pair (chunk index, slot
offset) of the slot of the node. -/
structure Handle where
  chunk : Nat
  slot : Nat
deriving DecidableEq, Repr

/-- Modelled from the spec: a node as far as the bookkeeping sees it, its scale
and its cached squared norm contribution (`MWNode.h` is not among the
sources). -/
structure MWNode where
  scale : Int
  squareNorm : ℚ
deriving DecidableEq, Repr

/-- Modelled from the spec: a chunk, a fixed-capacity array of node slots, `none`
being a free slot. -/
abbrev Chunk : Type := List (Option MWNode)

/-- The state of `SerialTree<D>`. The first seven fields are the members the
constructor in `SerialTree.cpp` initialises, in its order; the members that it
initialises with `0` are kept as integers, their declared types being in
`SerialTree.h`.

Modelled from the spec: the field `chunks`, the ordered sequence of chunks of
the arena. It is declared in `SerialTree.h`, which is not among the sources;
a default-constructed sequence is empty. -/
structure SerialTree where
  nNodes : Int
  maxNodesPerChunk : Int
  sizeNodeCoeff : Int
  coeffStack : Ptr
  maxNodes : Int
  tree_p : Ptr
  shMem : Ptr
  chunks : List Chunk
deriving DecidableEq, Repr

/-- The constructor `SerialTree<D>::SerialTree(MWTree<D> *tree, SharedMemory *mem)`.
`hasMPI` says whether the build defines `MRCPP_HAS_MPI`. -/
def SerialTree.new (hasMPI : Bool) (tree : Ptr) (mem : Ptr) : SerialTree :=
  { nNodes := 0
    maxNodesPerChunk := 0
    sizeNodeCoeff := 0
    coeffStack := none
    maxNodes := 0
    tree_p := tree
    shMem := if hasMPI then mem else none
    chunks := [] }

/-- Modelled from the spec: `getNNodes()` of the allocator (declared in
`SerialTree.h` / `NodeAllocator.h`, not among the sources): the occupancy
counter, read in O(1). -/
def SerialTree.getNNodes (a : SerialTree) : Int := a.nNodes

/-- The failure modes of the allocator. -/
inductive AllocError where
  | OutOfMemory
  | InvalidHandle
deriving DecidableEq, Repr

/-- Number of occupied slots of a chunk. -/
def occupiedInChunk : Chunk → Nat
  | [] => 0
  | none :: r => occupiedInChunk r
  | some _ :: r => occupiedInChunk r + 1

/-- Number of occupied slots of the arena. -/
def occupied : List Chunk → Nat
  | [] => 0
  | c :: cs => occupiedInChunk c + occupied cs

/-- Scan of one chunk for its first free slot; the node is placed there. -/
def takeFree (n : MWNode) : Chunk → Option (Nat × Chunk)
  | [] => none
  | none :: r => some (0, some n :: r)
  | some m :: r =>
    match takeFree n r with
    | some (i, r') => some (i + 1, some m :: r')
    | none => none

/-- Scan of the chunks, in order, for the first free slot. -/
def takeFreeChunks (n : MWNode) : List Chunk → Option (Handle × List Chunk)
  | [] => none
  | c :: cs =>
    match takeFree n c with
    | some (i, c') => some (⟨0, i⟩, c' :: cs)
    | none =>
      match takeFreeChunks n cs with
      | some (h, cs') => some (⟨h.chunk + 1, h.slot⟩, c :: cs')
      | none => none

/-- Marks slot `i` of a chunk free; fails when the slot does not exist or is
already free. -/
def release : Chunk → Nat → Option Chunk
  | [], _ => none
  | none :: _, 0 => none
  | some _ :: r, 0 => some (none :: r)
  | s :: r, i + 1 =>
    match release r i with
    | some r' => some (s :: r')
    | none => none

/-- Marks the slot of a handle free in the arena. -/
def releaseChunks : List Chunk → Nat → Nat → Option (List Chunk)
  | [], _, _ => none
  | c :: cs, 0, i =>
    match release c i with
    | some c' => some (c' :: cs)
    | none => none
  | c :: cs, k + 1, i =>
    match releaseChunks cs k i with
    | some cs' => some (c :: cs')
    | none => none

/-- A new chunk: `maxNodesPerChunk` free slots. -/
def newChunk (a : SerialTree) : Chunk := List.replicate a.maxNodesPerChunk.toNat none

/-- Modelled from the spec: `allocateNode()` (its definition is not among the
sources). The free slots of the existing chunks are scanned; when there is
none the arena grows by one chunk of capacity `maxNodesPerChunk` and the node
takes a slot of it. The call fails with `OutOfMemory` when a ceiling is
configured (`maxNodes` is not the `0` the constructor leaves) and the node
count would exceed it, and also when the new chunk has no slot to give. The
occupancy counter is incremented. -/
def SerialTree.allocateNode (a : SerialTree) (n : MWNode) :
    Except AllocError (Handle × SerialTree) :=
  if a.maxNodes ≠ 0 ∧ a.maxNodes < a.nNodes + 1 then .error .OutOfMemory
  else
    match takeFreeChunks n a.chunks with
    | some (h, cs) => .ok (h, { a with nNodes := a.nNodes + 1, chunks := cs })
    | none =>
      match takeFree n (newChunk a) with
      | some (i, c) =>
        .ok (⟨a.chunks.length, i⟩,
          { a with nNodes := a.nNodes + 1, chunks := a.chunks ++ [c] })
      | none => .error .OutOfMemory

/-- Modelled from the spec: `deallocateNode(handle)` (its definition is not
among the sources). The slot is marked free and stays in its chunk; no chunk
is compacted or removed. A handle that is out of range or already freed is an
`InvalidHandle` failure. The occupancy counter is decremented. -/
def SerialTree.deallocateNode (a : SerialTree) (h : Handle) : Except AllocError SerialTree :=
  match releaseChunks a.chunks h.chunk h.slot with
  | some cs => .ok { a with nNodes := a.nNodes - 1, chunks := cs }
  | none => .error .InvalidHandle

/-- One call on the allocator. -/
inductive AllocCall where
  | allocateNode (n : MWNode)
  | deallocateNode (h : Handle)
deriving DecidableEq, Repr

/-- Runs a sequence of calls; the first failing call ends the run. -/
def SerialTree.run (a : SerialTree) : List AllocCall → Except AllocError SerialTree
  | [] => .ok a
  | .allocateNode n :: cs =>
    match a.allocateNode n with
    | .ok (_, a') => a'.run cs
    | .error e => .error e
  | .deallocateNode h :: cs =>
    match a.deallocateNode h with
    | .ok a' => a'.run cs
    | .error e => .error e

/-- Number of `allocateNode` calls in a sequence. -/
def nAllocate : List AllocCall → Nat
  | [] => 0
  | .allocateNode _ :: cs => nAllocate cs + 1
  | .deallocateNode _ :: cs => nAllocate cs

/-- Number of `deallocateNode` calls in a sequence. -/
def nDeallocate : List AllocCall → Nat
  | [] => 0
  | .allocateNode _ :: cs => nDeallocate cs
  | .deallocateNode _ :: cs => nDeallocate cs + 1

/-- The node in the slot of a handle, when the slot is occupied. -/
def lookup (cs : List Chunk) (h : Handle) : Option MWNode :=
  match cs.get? h.chunk with
  | some c =>
    match c.get? h.slot with
    | some s => s
    | none => none
  | none => none

/-- The nodes in the occupied slots of a chunk. -/
def nodesInChunk : Chunk → List MWNode
  | [] => []
  | none :: r => nodesInChunk r
  | some n :: r => n :: nodesInChunk r

/-- The nodes in the occupied slots of the arena, in slot order. -/
def nodesIn : List Chunk → List MWNode
  | [] => []
  | c :: cs => nodesInChunk c ++ nodesIn cs

/-! ## NodeBox and MultiResolutionAnalysis -/

/-- Modelled from the spec: `NodeBox<D>` (`NodeBox.h` is not among the
sources): the fixed container of the root nodes, holding the root scale and
the root node handles. -/
structure NodeBox where
  scale : Int
  nodes : List Handle
deriving DecidableEq, Repr

/-- Modelled from the spec: `NodeBox::getScale()`. -/
def NodeBox.getScale (b : NodeBox) : Int := b.scale

/-- Modelled from the spec: `NodeBox::size()`, an `int`. -/
def NodeBox.size (b : NodeBox) : Int := toInt b.nodes.length

/-- Modelled from the spec: `NodeBox::getNode(i)`, direct array-style access,
valid for `0 <= i < size()`. -/
def NodeBox.getNode (b : NodeBox) (i : Int) : Option Handle :=
  if 0 ≤ i then b.nodes.get? i.toNat else none

/-- Modelled from the spec: what the tree reads of `MultiResolutionAnalysis<D>`
(`MultiResolutionAnalysis.h` is not among the sources): the polynomial order
and the periodicity of the world box. -/
structure MultiResolutionAnalysis where
  order : CInt
  periodic : Bool
deriving DecidableEq, Repr

/-! ## MWTree -/

/-- The data members of `MWTree<D>` (`MWTree.h`, lines 125-141). The template
parameter `D` is the parameter of the structure. `nodeAllocator_p` is the
`unique_ptr`, `none` when it is null. The entries of the two counter vectors
are node counts and are kept as integers. -/
structure MWTree (D : Nat) where
  MRA : MultiResolutionAnalysis
  order : CInt
  kp1_d : CInt
  name : String
  nodeAllocator_p : Option SerialTree
  squareNorm : ℚ
  rootBox : NodeBox
  endNodeTable : List Handle
  nodesAtDepth : List Int
  nodesAtNegativeDepth : List Int
deriving DecidableEq

namespace MWTree

variable {D : Nat}

/-- Member `double getSquareNorm() const { return this->squareNorm; }` -/
def getSquareNorm (t : MWTree D) : ℚ := t.squareNorm

/-- Member `void clearSquareNorm() { this->squareNorm = -1.0; }` -/
def clearSquareNorm (t : MWTree D) : MWTree D := { t with squareNorm := -1 }

/-- Member `int getOrder() const { return this->order; }` -/
def getOrder (t : MWTree D) : Int := t.order.val

/-- Member `int getKp1() const { return this->order + 1; }` -/
def getKp1 (t : MWTree D) : Int := toInt (t.order.val + 1)

/-- Member `int getKp1_d() const { return this->kp1_d; }` -/
def getKp1_d (t : MWTree D) : Int := t.kp1_d.val

/-- Member `int getDim() const { return D; }` -/
def getDim (_t : MWTree D) : Int := toInt D

/-- Member `int getTDim() const { return (1 << D); }` -/
def getTDim (_t : MWTree D) : Int := toInt ((1 <<< D : Nat) : Int)

/-- Member `NodeAllocator<D> &getNodeAllocator() { return *this->nodeAllocator_p; }`:
the dereference has a value only when the pointer is not null. -/
def getNodeAllocator (t : MWTree D) : Option SerialTree := t.nodeAllocator_p

/-- Member `int getNNodes() const { return getNodeAllocator().getNNodes(); }` -/
def getNNodes (t : MWTree D) : Option Int :=
  match t.getNodeAllocator with
  | some a => some a.getNNodes
  | none => none

/-- Member `int getNNegScales() const { return this->nodesAtNegativeDepth.size(); }` -/
def getNNegScales (t : MWTree D) : Int := toInt t.nodesAtNegativeDepth.length

/-- Member `int getRootScale() const { return this->rootBox.getScale(); }` -/
def getRootScale (t : MWTree D) : Int := t.rootBox.getScale

/-- Member `int getDepth() const { return this->nodesAtDepth.size(); }` -/
def getDepth (t : MWTree D) : Int := toInt t.nodesAtDepth.length

/-- Member `NodeBox<D> &getRootBox() { return this->rootBox; }` -/
def getRootBox (t : MWTree D) : NodeBox := t.rootBox

/-- Member `const MultiResolutionAnalysis<D> &getMRA() const { return this->MRA; }` -/
def getMRA (t : MWTree D) : MultiResolutionAnalysis := t.MRA

/-- Member `void setName(const std::string &n) { this->name = n; }` -/
def setName (t : MWTree D) (n : String) : MWTree D := { t with name := n }

/-- Member `const std::string &getName() const { return this->name; }` -/
def getName (t : MWTree D) : String := t.name

/-- Member `int getNEndNodes() const { return this->endNodeTable.size(); }` -/
def getNEndNodes (t : MWTree D) : Int := toInt t.endNodeTable.length

/-- Member `int getNRootNodes() const { return this->rootBox.size(); }` -/
def getNRootNodes (t : MWTree D) : Int := t.rootBox.size

/-- Member `MWNode<D> &getEndMWNode(int i) { return *this->endNodeTable[i]; }`: the
node is named by its handle; there is one only for an index of the table. -/
def getEndMWNode (t : MWTree D) (i : Int) : Option Handle :=
  if 0 ≤ i then t.endNodeTable.get? i.toNat else none

/-- Member `MWNode<D> &getRootMWNode(int i) { return this->rootBox.getNode(i); }` -/
def getRootMWNode (t : MWTree D) (i : Int) : Option Handle := t.rootBox.getNode i

/-- Member `const MWNode<D> &getEndMWNode(int i) const { return *this->endNodeTable[i]; }` -/
def getEndMWNode_const (t : MWTree D) (i : Int) : Option Handle :=
  if 0 ≤ i then t.endNodeTable.get? i.toNat else none

/-- Member `const MWNode<D> &getRootMWNode(int i) const { return this->rootBox.getNode(i); }` -/
def getRootMWNode_const (t : MWTree D) (i : Int) : Option Handle := t.rootBox.getNode i

/-- Member `bool isPeriodic() const { return this->MRA.getWorldBox().isPeriodic(); }` -/
def isPeriodic (t : MWTree D) : Bool := t.MRA.periodic

/-- Member `MWNodeVector<D> *getEndNodeTable() { return &this->endNodeTable; }` -/
def getEndNodeTable (t : MWTree D) : List Handle := t.endNodeTable

/-- Member `void clearEndNodeTable() { this->endNodeTable.clear(); }` -/
def clearEndNodeTable (t : MWTree D) : MWTree D := { t with endNodeTable := [] }

end MWTree

/-- Modelled from the spec: the configuration surface of the allocator
("maximum nodes-per-chunk, optional hard node-count ceiling"), applied to a
constructed allocator; `0` for `maxNodes` leaves the ceiling unconfigured. -/
def SerialTree.configure (a : SerialTree) (maxNodesPerChunk maxNodes : Int) : SerialTree :=
  { a with maxNodesPerChunk := maxNodesPerChunk, maxNodes := maxNodes }

/-! ## Depth counters, node creation and destruction, square norm -/

namespace MWTree

variable {D : Nat}

/-- Adds one to entry `i` of a counter vector, first growing the vector with
zero entries when it is too short. -/
def incrementAt : List Int → Nat → List Int
  | [], 0 => [1]
  | [], i + 1 => 0 :: incrementAt [] i
  | x :: r, 0 => (x + 1) :: r
  | x :: r, i + 1 => x :: incrementAt r i

/-- Subtracts one from entry `i` of a counter vector; there is no result when
the vector has no such entry. -/
def decrementAt : List Int → Nat → Option (List Int)
  | [], _ => none
  | x :: r, 0 => some ((x - 1) :: r)
  | x :: r, i + 1 =>
    match decrementAt r i with
    | some r' => some (x :: r')
    | none => none

/-- Modelled from the spec: `incrementNodeCount(scale)` (declared in
`MWTree.h`, its definition is not among the sources): the counter of the depth
`scale - rootScale` is incremented, in `nodesAtDepth` for a depth `>= 0` and in
`nodesAtNegativeDepth` for a coarser-than-root depth. -/
def incrementNodeCount (t : MWTree D) (scale : Int) : MWTree D :=
  let depth := scale - t.getRootScale
  if 0 ≤ depth then { t with nodesAtDepth := incrementAt t.nodesAtDepth depth.toNat }
  else { t with nodesAtNegativeDepth := incrementAt t.nodesAtNegativeDepth (-depth - 1).toNat }

/-- Modelled from the spec: `decrementNodeCount(scale)` (declared in
`MWTree.h`, its definition is not among the sources): the counter of the depth
`scale - rootScale` is decremented; there is no result when no counter exists
for that depth. -/
def decrementNodeCount (t : MWTree D) (scale : Int) : Option (MWTree D) :=
  let depth := scale - t.getRootScale
  if 0 ≤ depth then
    match decrementAt t.nodesAtDepth depth.toNat with
    | some v => some { t with nodesAtDepth := v }
    | none => none
  else
    match decrementAt t.nodesAtNegativeDepth (-depth - 1).toNat with
    | some v => some { t with nodesAtNegativeDepth := v }
    | none => none

/-- Modelled from the spec: a node creation paired with its increment: the
node takes a slot of the allocator and `incrementNodeCount` is called with the
scale of the node. -/
def createNode (t : MWTree D) (n : MWNode) : Option (Handle × MWTree D) :=
  match t.nodeAllocator_p with
  | none => none
  | some a =>
    match a.allocateNode n with
    | .ok (h, a') => some (h, incrementNodeCount { t with nodeAllocator_p := some a' } n.scale)
    | .error _ => none

/-- Modelled from the spec: a node destruction paired with its decrement: the
slot of the node is given back to the allocator and `decrementNodeCount` is
called with the scale of the node. -/
def destroyNode (t : MWTree D) (h : Handle) : Option (MWTree D) :=
  match t.nodeAllocator_p with
  | none => none
  | some a =>
    match lookup a.chunks h with
    | none => none
    | some n =>
      match a.deallocateNode h with
      | .ok a' => decrementNodeCount { t with nodeAllocator_p := some a' } n.scale
      | .error _ => none

/-- The nodes of the tree: those in the occupied slots of its allocator. -/
def allNodes (t : MWTree D) : List MWNode :=
  match t.nodeAllocator_p with
  | some a => nodesIn a.chunks
  | none => []

/-- Modelled from the spec: `calcSquareNorm()` (declared in `MWTree.h`, its
definition is not among the sources): the tree-wide reduction that sums the
cached squared-norm contribution of each node. The result is cached on the
tree; while the cache does not hold the sentinel `-1` that signals "stale" a
call returns the cached value without recomputation. -/
def calcSquareNorm (t : MWTree D) : MWTree D :=
  if t.squareNorm = -1 then { t with squareNorm := (t.allNodes.map MWNode.squareNorm).sum }
  else t

/-- One operation on the tree. -/
inductive Op where
  | createNode (n : MWNode)
  | destroyNode (h : Handle)
  | clearSquareNorm
  | clearEndNodeTable
  | setName (n : String)
deriving DecidableEq, Repr

/-- Runs a sequence of tree operations; the first failing operation ends the
run. -/
def run (t : MWTree D) : List Op → Option (MWTree D)
  | [] => some t
  | .createNode n :: ops =>
    match t.createNode n with
    | some (_, t') => t'.run ops
    | none => none
  | .destroyNode h :: ops =>
    match t.destroyNode h with
    | some t' => t'.run ops
    | none => none
  | .clearSquareNorm :: ops => t.clearSquareNorm.run ops
  | .clearEndNodeTable :: ops => t.clearEndNodeTable.run ops
  | .setName n :: ops => (t.setName n).run ops

/-- The counter invariant: the entries of `nodesAtDepth` and of
`nodesAtNegativeDepth` add up to `getNNodes()`. -/
def CountersMatch (t : MWTree D) : Prop :=
  t.getNNodes = some (t.nodesAtDepth.sum + t.nodesAtNegativeDepth.sum)

instance (t : MWTree D) : Decidable (CountersMatch t) := by
  unfold CountersMatch; infer_instance

end MWTree

/-! ## HelmholtzOperator -/

/-- Modelled from the spec: the global state of `Printer` (`utils/Printer.h`
is not among the sources): the print level. -/
structure Printer where
  printLevel : Int
deriving DecidableEq, Repr

/-- Modelled from the spec: `Printer::setPrintLevel(n)` sets the level to `n`
and returns the previous level. -/
def Printer.setPrintLevel (g : Printer) (n : Int) : Int × Printer :=
  (g.printLevel, { printLevel := n })

/-- Modelled from the spec: the kernel object
`HelmholtzKernel(mu, epsilon, r_min, r_max)` (`HelmholtzKernel.h` is not among
the sources, and the Gaussian expansion is out of scope): its constructor
arguments and the dimensions it was rescaled for, in call order. -/
structure HelmholtzKernel where
  mu : ℚ
  epsilon : ℚ
  r_min : ℚ
  r_max : ℚ
  rescaled : List Int
deriving DecidableEq, Repr

/-- Modelled from the spec: the call `helmholtz_kernel.rescale(d)`, recorded on the kernel. -/
def HelmholtzKernel.rescale (k : HelmholtzKernel) (d : Int) : HelmholtzKernel :=
  { k with rescaled := k.rescaled ++ [d] }

/-- The calls a constructor body makes to code outside `HelmholtzOperator.cpp`. -/
inductive Call where
  | calcMinDistance (epsilon : ℚ)
  | calcMaxDistance
  | newHelmholtzKernel (mu epsilon r_min r_max : ℚ)
  | rescale (d : Int)
  | initializeOperator (k : HelmholtzKernel)
deriving DecidableEq, Repr

/-- The code outside `HelmholtzOperator.cpp` that the constructors call, taken
as a parameter: the value each call returns and what it does to the print
level. -/
structure Externals where
  calcMinDistance : MultiResolutionAnalysis → ℚ → Printer → ℚ × Printer
  calcMaxDistance : MultiResolutionAnalysis → Printer → ℚ × Printer
  kernelCtor : ℚ → ℚ → ℚ → ℚ → Printer → Printer
  rescale : Int → Printer → Printer
  initializeOperator : HelmholtzKernel → Printer → Printer

/-- Modelled from the spec: the base class `ConvolutionOperator<3>`
(`ConvolutionOperator.h` is not among the sources): its constructor stores the
build precision and the kernel precision it is given, and the root and reach
when it is given them. -/
structure ConvolutionOperator where
  mra : MultiResolutionAnalysis
  build_prec : ℚ
  kern_prec : ℚ
  rootReach : Option (Int × Int)
deriving DecidableEq, Repr

/-- A constructed `HelmholtzOperator`: the base class part, the member `mu`
and the kernel `initializeOperator` was called with. -/
structure HelmholtzOperator where
  base : ConvolutionOperator
  mu : ℚ
  kernel : HelmholtzKernel
deriving DecidableEq, Repr

/-- What a constructor leaves behind: the operator, the global print level,
and the calls of the body in order, each with the print level at its entry. -/
structure Constructed where
  oper : HelmholtzOperator
  printer : Printer
  calls : List (Call × Int)

/-- The body shared, line for line, by both constructors (lines 44-51 and
57-64), run on the base class part `base` and the member `mu`. -/
def HelmholtzOperator.body (x : Externals) (mra : MultiResolutionAnalysis)
    (base : ConvolutionOperator) (mu : ℚ) (g0 : Printer) : Constructed :=
  -- int oldlevel = Printer::setPrintLevel(0);
  let (oldlevel, g1) := g0.setPrintLevel 0
  -- double r_min = calcMinDistance(mra, this->kern_prec);
  let (r_min, g2) := x.calcMinDistance mra base.kern_prec g1
  -- double r_max = calcMaxDistance(mra);
  let (r_max, g3) := x.calcMaxDistance mra g2
  -- HelmholtzKernel helmholtz_kernel(this->mu, this->kern_prec, r_min, r_max);
  let k0 : HelmholtzKernel :=
    { mu := mu, epsilon := base.kern_prec, r_min := r_min, r_max := r_max, rescaled := [] }
  let g4 := x.kernelCtor mu base.kern_prec r_min r_max g3
  -- helmholtz_kernel.rescale(3);
  let k1 := k0.rescale 3
  let g5 := x.rescale 3 g4
  -- initializeOperator(helmholtz_kernel);
  let g6 := x.initializeOperator k1 g5
  -- Printer::setPrintLevel(oldlevel);
  let (_, g7) := g6.setPrintLevel oldlevel
  { oper := { base := base, mu := mu, kernel := k1 }
    printer := g7
    calls :=
      [ (.calcMinDistance base.kern_prec, g1.printLevel),
        (.calcMaxDistance, g2.printLevel),
        (.newHelmholtzKernel mu base.kern_prec r_min r_max, g3.printLevel),
        (.rescale 3, g4.printLevel),
        (.initializeOperator k1, g5.printLevel) ] }

/-- Constructor `HelmholtzOperator::HelmholtzOperator(mra, m, prec)`: the base class is
`ConvolutionOperator<3>(mra, prec, prec / 10.0)` and `mu(m)`. -/
def HelmholtzOperator.new (x : Externals) (mra : MultiResolutionAnalysis) (m prec : ℚ)
    (g0 : Printer) : Constructed :=
  HelmholtzOperator.body x mra
    { mra := mra, build_prec := prec, kern_prec := prec / 10, rootReach := none } m g0

/-- Constructor `HelmholtzOperator::HelmholtzOperator(mra, m, prec, root, reach)`: the base
class is `ConvolutionOperator<3>(mra, prec, prec / 100.0, root, reach)` and
`mu(m)`. -/
def HelmholtzOperator.newRootReach (x : Externals) (mra : MultiResolutionAnalysis) (m prec : ℚ)
    (root reach : Int) (g0 : Printer) : Constructed :=
  HelmholtzOperator.body x mra
    { mra := mra, build_prec := prec, kern_prec := prec / 100, rootReach := some (root, reach) }
    m g0

/-- An external call leaves the print level as it found it. -/
def Externals.KeepsPrintLevel (x : Externals) : Prop :=
  (∀ mra e g, (x.calcMinDistance mra e g).2 = g) ∧
  (∀ mra g, (x.calcMaxDistance mra g).2 = g) ∧
  (∀ a b c d g, x.kernelCtor a b c d g = g) ∧
  (∀ d g, x.rescale d g = g) ∧
  (∀ k g, x.initializeOperator k g = g)

/-! ## Sample objects -/

/-- A tree of dimension 3 and order 2 without nodes: an allocator as
constructed, configured with chunks of two slots, and no counter yet. -/
def sampleTree : MWTree 3 :=
  { MRA := { order := ⟨2, by decide⟩, periodic := false }
    order := ⟨2, by decide⟩
    kp1_d := ⟨27, by decide⟩
    name := "nn"
    nodeAllocator_p := some ((SerialTree.new false (some 1) none).configure 2 0)
    squareNorm := -1
    rootBox := { scale := 0, nodes := [] }
    endNodeTable := []
    nodesAtDepth := []
    nodesAtNegativeDepth := [] }

/-- The sample tree after three node creations (scales 0, 1 and -1), a
`clearSquareNorm`, the destruction of the node of scale 1, a `setName` and a
`clearEndNodeTable`. -/
def sampleTreeAfter : MWTree 3 :=
  { MRA := { order := ⟨2, by decide⟩, periodic := false }
    order := ⟨2, by decide⟩
    kp1_d := ⟨27, by decide⟩
    name := "f"
    nodeAllocator_p := some
      { nNodes := 2, maxNodesPerChunk := 2, sizeNodeCoeff := 0, coeffStack := none,
        maxNodes := 0, tree_p := some 1, shMem := none,
        chunks := [[some ⟨0, 4⟩, none], [some ⟨-1, 1⟩, none]] }
    squareNorm := -1
    rootBox := { scale := 0, nodes := [] }
    endNodeTable := []
    nodesAtDepth := [1, 0]
    nodesAtNegativeDepth := [1] }

/-- A tree with two root nodes, three end nodes and a computed square norm. -/
def sampleTreeWithNodes : MWTree 3 :=
  { MRA := { order := ⟨2, by decide⟩, periodic := false }
    order := ⟨2, by decide⟩
    kp1_d := ⟨27, by decide⟩
    name := "g"
    nodeAllocator_p := some
      { nNodes := 4, maxNodesPerChunk := 2, sizeNodeCoeff := 0, coeffStack := none,
        maxNodes := 0, tree_p := some 1, shMem := none,
        chunks := [[some ⟨0, 4⟩, some ⟨0, 1⟩], [some ⟨1, 2⟩, some ⟨1, 3⟩]] }
    squareNorm := 10
    rootBox := { scale := 0, nodes := [⟨0, 0⟩, ⟨0, 1⟩] }
    endNodeTable := [⟨0, 1⟩, ⟨1, 0⟩, ⟨1, 1⟩]
    nodesAtDepth := [2, 2]
    nodesAtNegativeDepth := [] }

/-- External code that returns fixed distances and leaves the print level
alone. -/
def sampleExternals : Externals :=
  { calcMinDistance := fun _ e g => (e / 2, g)
    calcMaxDistance := fun _ g => (8, g)
    kernelCtor := fun _ _ _ _ g => g
    rescale := fun _ g => g
    initializeOperator := fun _ g => g }

/-- External code that raises the print level at every call. -/
def noisyExternals : Externals :=
  { calcMinDistance := fun _ e g => (e / 2, { printLevel := g.printLevel + 1 })
    calcMaxDistance := fun _ g => (8, { printLevel := g.printLevel + 1 })
    kernelCtor := fun _ _ _ _ g => { printLevel := g.printLevel + 1 }
    rescale := fun _ g => { printLevel := g.printLevel + 1 }
    initializeOperator := fun _ g => { printLevel := g.printLevel + 1 } }

/-- An analysis of order 2 on a non-periodic world. -/
def sampleMRA : MultiResolutionAnalysis := { order := ⟨2, by decide⟩, periodic := false }

/-! # Properties -/

/-! ## The allocator -/

theorem takeFree_occupied (n : MWNode) :
    ∀ (c : Chunk) (i : Nat) (c' : Chunk), takeFree n c = some (i, c') →
      occupiedInChunk c' = occupiedInChunk c + 1 := by
  intro c
  induction c with
  | nil => intro i c' h; simp [takeFree] at h
  | cons s r ih =>
    intro i c' h
    cases s with
    | none =>
      simp only [takeFree, Option.some.injEq, Prod.mk.injEq] at h
      rw [← h.2]; simp [occupiedInChunk]
    | some m =>
      simp only [takeFree] at h
      cases hr : takeFree n r with
      | none => rw [hr] at h; simp at h
      | some p =>
        obtain ⟨j, r'⟩ := p
        rw [hr] at h
        simp only [Option.some.injEq, Prod.mk.injEq] at h
        rw [← h.2]
        simp [occupiedInChunk, ih j r' hr]

theorem takeFreeChunks_occupied (n : MWNode) :
    ∀ (cs : List Chunk) (h : Handle) (cs' : List Chunk), takeFreeChunks n cs = some (h, cs') →
      occupied cs' = occupied cs + 1 := by
  intro cs
  induction cs with
  | nil => intro h cs' e; simp [takeFreeChunks] at e
  | cons c r ih =>
    intro h cs' e
    simp only [takeFreeChunks] at e
    cases hc : takeFree n c with
    | some p =>
      obtain ⟨i, c'⟩ := p
      rw [hc] at e
      simp only [Option.some.injEq, Prod.mk.injEq] at e
      rw [← e.2]
      simp only [occupied, takeFree_occupied n c i c' hc]
      omega
    | none =>
      rw [hc] at e
      cases hr : takeFreeChunks n r with
      | none => rw [hr] at e; simp at e
      | some p =>
        obtain ⟨h', r'⟩ := p
        rw [hr] at e
        simp only [Option.some.injEq, Prod.mk.injEq] at e
        rw [← e.2]
        simp only [occupied, ih h' r' hr]
        omega

theorem release_occupied :
    ∀ (c : Chunk) (i : Nat) (c' : Chunk), release c i = some c' →
      occupiedInChunk c' + 1 = occupiedInChunk c := by
  intro c
  induction c with
  | nil => intro i c' h; simp [release] at h
  | cons s r ih =>
    intro i c' h
    cases i with
    | zero =>
      cases s with
      | none => simp [release] at h
      | some m =>
        simp only [release, Option.some.injEq] at h
        rw [← h]; simp [occupiedInChunk]
    | succ j =>
      simp only [release] at h
      cases hr : release r j with
      | none => rw [hr] at h; simp at h
      | some r' =>
        rw [hr] at h
        simp only [Option.some.injEq] at h
        rw [← h]
        have := ih j r' hr
        cases s <;> simp only [occupiedInChunk] <;> omega

theorem releaseChunks_occupied :
    ∀ (cs : List Chunk) (k i : Nat) (cs' : List Chunk), releaseChunks cs k i = some cs' →
      occupied cs' + 1 = occupied cs := by
  intro cs
  induction cs with
  | nil => intro k i cs' h; simp [releaseChunks] at h
  | cons c r ih =>
    intro k i cs' h
    cases k with
    | zero =>
      simp only [releaseChunks] at h
      cases hc : release c i with
      | none => rw [hc] at h; simp at h
      | some c' =>
        rw [hc] at h
        simp only [Option.some.injEq] at h
        rw [← h]
        have := release_occupied c i c' hc
        simp only [occupied]; omega
    | succ j =>
      simp only [releaseChunks] at h
      cases hr : releaseChunks r j i with
      | none => rw [hr] at h; simp at h
      | some r' =>
        rw [hr] at h
        simp only [Option.some.injEq] at h
        rw [← h]
        have := ih j i r' hr
        simp only [occupied]; omega

theorem occupied_append (cs : List Chunk) (c : Chunk) :
    occupied (cs ++ [c]) = occupied cs + occupiedInChunk c := by
  induction cs with
  | nil => simp [occupied]
  | cons d r ih =>
    show occupiedInChunk d + occupied (r ++ [c]) = occupiedInChunk d + occupied r + occupiedInChunk c
    rw [ih]; omega

theorem allocateNode_counts (a a' : SerialTree) (n : MWNode) (h : Handle)
    (e : a.allocateNode n = .ok (h, a')) :
    a'.nNodes = a.nNodes + 1 ∧ occupied a'.chunks = occupied a.chunks + 1 := by
  unfold SerialTree.allocateNode at e
  split at e
  · simp at e
  · split at e
    · rename_i h' cs hc
      simp only [Except.ok.injEq, Prod.mk.injEq] at e
      rw [← e.2]
      exact ⟨rfl, takeFreeChunks_occupied n a.chunks h' cs hc⟩
    · split at e
      · rename_i i c hc
        simp only [Except.ok.injEq, Prod.mk.injEq] at e
        rw [← e.2]
        refine ⟨rfl, ?_⟩
        have h1 := takeFree_occupied n (newChunk a) i c hc
        have h2 : occupiedInChunk (newChunk a) = 0 := by
          unfold newChunk
          induction a.maxNodesPerChunk.toNat with
          | zero => rfl
          | succ k ih => simpa [List.replicate, occupiedInChunk] using ih
        simp only [occupied_append]; omega
      · simp at e

theorem deallocateNode_counts (a a' : SerialTree) (h : Handle)
    (e : a.deallocateNode h = .ok a') :
    a'.nNodes = a.nNodes - 1 ∧ occupied a'.chunks + 1 = occupied a.chunks := by
  unfold SerialTree.deallocateNode at e
  split at e
  · rename_i cs hc
    simp only [Except.ok.injEq] at e
    rw [← e]
    exact ⟨rfl, releaseChunks_occupied a.chunks h.chunk h.slot cs hc⟩
  · simp at e

theorem allocateNode_succeeds (a : SerialTree) (n : MWNode) (hceil : a.maxNodes = 0)
    (hcap : 0 < a.maxNodesPerChunk) : ∃ h a', a.allocateNode n = .ok (h, a') := by
  unfold SerialTree.allocateNode
  rw [if_neg (by simp [hceil])]
  cases hs : takeFreeChunks n a.chunks with
  | some p => exact ⟨p.1, _, rfl⟩
  | none =>
    have hc : newChunk a = none :: List.replicate (a.maxNodesPerChunk.toNat - 1) none := by
      unfold newChunk
      have : a.maxNodesPerChunk.toNat = (a.maxNodesPerChunk.toNat - 1) + 1 := by omega
      rw [this, List.replicate_succ]
      simp
    simp only [hc, takeFree]
    exact ⟨_, _, rfl⟩

theorem run_counts :
    ∀ (calls : List AllocCall) (a a' : SerialTree), a.run calls = .ok a' →
      a'.nNodes = a.nNodes + nAllocate calls - nDeallocate calls ∧
      a'.nNodes - occupied a'.chunks = a.nNodes - occupied a.chunks := by
  intro calls
  induction calls with
  | nil =>
    intro a a' e
    simp only [SerialTree.run, Except.ok.injEq] at e
    subst e; simp [nAllocate, nDeallocate]
  | cons c cs ih =>
    intro a a' e
    cases c with
    | allocateNode n =>
      simp only [SerialTree.run] at e
      cases hs : a.allocateNode n with
      | error err => rw [hs] at e; simp at e
      | ok p =>
        obtain ⟨h, a1⟩ := p
        rw [hs] at e
        have h1 := allocateNode_counts a a1 n h hs
        have h2 := ih a1 a' e
        simp only [nAllocate, nDeallocate]
        push_cast
        omega
    | deallocateNode h =>
      simp only [SerialTree.run] at e
      cases hs : a.deallocateNode h with
      | error err => rw [hs] at e; simp at e
      | ok a1 =>
        rw [hs] at e
        have h1 := deallocateNode_counts a a1 h hs
        have h2 := ih a1 a' e
        simp only [nAllocate, nDeallocate]
        push_cast
        omega

/-- Claim C1. On a newly constructed `SerialTree` allocator (with any
configured chunk capacity and ceiling, the constructor's own `0`, `0`
included), after every finite sequence of `allocateNode` / `deallocateNode`
calls that ran to completion `getNNodes()` is the number of allocate calls
minus the number of deallocate calls, and it is the number of occupied slots
of the arena; a newly constructed allocator has `getNNodes() = 0`;
`MWTree::getNNodes()` returns exactly the count of the tree's allocator; and
an `allocateNode` call on an allocator without ceiling and with a positive
chunk capacity never fails. -/
theorem getNNodes_eq_allocate_minus_deallocate (hasMPI : Bool) (tree mem : Ptr)
    (maxNodesPerChunk maxNodes : Int) (calls : List AllocCall) (a : SerialTree)
    (hrun : ((SerialTree.new hasMPI tree mem).configure maxNodesPerChunk maxNodes).run calls
      = .ok a) :
    a.getNNodes = (nAllocate calls : Int) - (nDeallocate calls : Int) ∧
    a.getNNodes = (occupied a.chunks : Int) ∧
    (SerialTree.new hasMPI tree mem).getNNodes = 0 ∧
    ((SerialTree.new hasMPI tree mem).configure maxNodesPerChunk maxNodes).getNNodes = 0 ∧
    (∀ (D : Nat) (t : MWTree D) (b : SerialTree),
      t.nodeAllocator_p = some b → t.getNNodes = some b.getNNodes) ∧
    (∀ (b : SerialTree) (n : MWNode), b.maxNodes = 0 → 0 < b.maxNodesPerChunk →
      ∃ h b', b.allocateNode n = .ok (h, b')) := by
  have h := run_counts calls _ a hrun
  refine ⟨?_, ?_, rfl, rfl, ?_, allocateNode_succeeds⟩
  · have h1 := h.1
    simp only [SerialTree.configure, SerialTree.new] at h1
    simp only [SerialTree.getNNodes]
    omega
  · have h2 := h.2
    simp only [SerialTree.configure, SerialTree.new, occupied] at h2
    simp only [SerialTree.getNNodes]
    omega
  · intro D t b hb
    simp [MWTree.getNNodes, MWTree.getNodeAllocator, hb]

/-- Witness of C1: with chunks of two slots, three allocations, the release of
slot 1 of chunk 0 and one more allocation leave three nodes, the freed slot
being used again. -/
theorem getNNodes_eq_allocate_minus_deallocate_witness :
    ((SerialTree.new true (some 1) none).configure 2 0).run
        [.allocateNode ⟨0, -1⟩, .allocateNode ⟨1, -1⟩, .allocateNode ⟨1, -1⟩,
         .deallocateNode ⟨0, 1⟩, .allocateNode ⟨2, -1⟩]
      = .ok { nNodes := 3, maxNodesPerChunk := 2, sizeNodeCoeff := 0, coeffStack := none,
              maxNodes := 0, tree_p := some 1, shMem := none,
              chunks := [[some ⟨0, -1⟩, some ⟨2, -1⟩], [some ⟨1, -1⟩, none]] } ∧
    (3 : Int) = ((4 : Nat) : Int) - ((1 : Nat) : Int) := by
  refine ⟨rfl, ?_⟩
  have h := getNNodes_eq_allocate_minus_deallocate true (some 1) none 2 0
    [.allocateNode ⟨0, -1⟩, .allocateNode ⟨1, -1⟩, .allocateNode ⟨1, -1⟩,
     .deallocateNode ⟨0, 1⟩, .allocateNode ⟨2, -1⟩]
    { nNodes := 3, maxNodesPerChunk := 2, sizeNodeCoeff := 0, coeffStack := none,
      maxNodes := 0, tree_p := some 1, shMem := none,
      chunks := [[some ⟨0, -1⟩, some ⟨2, -1⟩], [some ⟨1, -1⟩, none]] } rfl
  exact h.1

/-! ## The depth counters -/

theorem incrementAt_sum : ∀ (v : List Int) (i : Nat), (MWTree.incrementAt v i).sum = v.sum + 1 := by
  intro v
  induction v with
  | nil =>
    intro i
    induction i with
    | zero => simp [MWTree.incrementAt]
    | succ j ih => simpa [MWTree.incrementAt] using ih
  | cons x r ih =>
    intro i
    cases i with
    | zero => simp only [MWTree.incrementAt, List.sum_cons]; omega
    | succ j => simp only [MWTree.incrementAt, List.sum_cons, ih j]; omega

theorem decrementAt_sum :
    ∀ (v : List Int) (i : Nat) (w : List Int), MWTree.decrementAt v i = some w →
      w.sum = v.sum - 1 := by
  intro v
  induction v with
  | nil => intro i w h; simp [MWTree.decrementAt] at h
  | cons x r ih =>
    intro i w h
    cases i with
    | zero =>
      simp only [MWTree.decrementAt, Option.some.injEq] at h
      rw [← h]; simp only [List.sum_cons]; omega
    | succ j =>
      simp only [MWTree.decrementAt] at h
      cases hr : MWTree.decrementAt r j with
      | none => rw [hr] at h; simp at h
      | some r' =>
        rw [hr] at h
        simp only [Option.some.injEq] at h
        rw [← h]
        simp only [List.sum_cons, ih j r' hr]; omega

theorem incrementNodeCount_counts {D : Nat} (t : MWTree D) (scale : Int) :
    (t.incrementNodeCount scale).nodeAllocator_p = t.nodeAllocator_p ∧
    (t.incrementNodeCount scale).nodesAtDepth.sum
        + (t.incrementNodeCount scale).nodesAtNegativeDepth.sum
      = t.nodesAtDepth.sum + t.nodesAtNegativeDepth.sum + 1 := by
  simp only [MWTree.incrementNodeCount]
  split
  · exact ⟨rfl, by simp only [incrementAt_sum]; omega⟩
  · exact ⟨rfl, by simp only [incrementAt_sum]; omega⟩

theorem decrementNodeCount_counts {D : Nat} (t t' : MWTree D) (scale : Int)
    (e : t.decrementNodeCount scale = some t') :
    t'.nodeAllocator_p = t.nodeAllocator_p ∧
    t'.nodesAtDepth.sum + t'.nodesAtNegativeDepth.sum
      = t.nodesAtDepth.sum + t.nodesAtNegativeDepth.sum - 1 := by
  unfold MWTree.decrementNodeCount at e
  by_cases h : 0 ≤ scale - t.getRootScale
  · simp only [h, if_true] at e
    cases hv : MWTree.decrementAt t.nodesAtDepth (scale - t.getRootScale).toNat with
    | none => rw [hv] at e; simp at e
    | some v =>
      rw [hv] at e
      simp only [Option.some.injEq] at e
      rw [← e]
      refine ⟨rfl, ?_⟩
      have := decrementAt_sum _ _ v hv
      simp only; omega
  · simp only [h, if_false] at e
    cases hv : MWTree.decrementAt t.nodesAtNegativeDepth (-(scale - t.getRootScale) - 1).toNat with
    | none => rw [hv] at e; simp at e
    | some v =>
      rw [hv] at e
      simp only [Option.some.injEq] at e
      rw [← e]
      refine ⟨rfl, ?_⟩
      have := decrementAt_sum _ _ v hv
      simp only; omega

theorem countersMatch_iff {D : Nat} (t : MWTree D) :
    t.CountersMatch ↔ ∃ a, t.nodeAllocator_p = some a ∧
      a.nNodes = t.nodesAtDepth.sum + t.nodesAtNegativeDepth.sum := by
  unfold MWTree.CountersMatch MWTree.getNNodes MWTree.getNodeAllocator SerialTree.getNNodes
  cases t.nodeAllocator_p with
  | none => simp
  | some a => simp

theorem createNode_countersMatch {D : Nat} (t t' : MWTree D) (n : MWNode) (h : Handle)
    (h0 : t.CountersMatch) (e : t.createNode n = some (h, t')) : t'.CountersMatch := by
  rw [countersMatch_iff] at h0 ⊢
  obtain ⟨a, ha, hn⟩ := h0
  unfold MWTree.createNode at e
  rw [ha] at e
  simp only at e
  cases hs : a.allocateNode n with
  | error err => rw [hs] at e; simp at e
  | ok p =>
    obtain ⟨h', a'⟩ := p
    rw [hs] at e
    simp only [Option.some.injEq, Prod.mk.injEq] at e
    have hc := allocateNode_counts a a' n h' hs
    have hi := incrementNodeCount_counts ({ t with nodeAllocator_p := some a' } : MWTree D) n.scale
    rw [← e.2]
    refine ⟨a', hi.1, ?_⟩
    have h2 := hi.2
    simp only at h2
    omega

theorem destroyNode_countersMatch {D : Nat} (t t' : MWTree D) (h : Handle)
    (h0 : t.CountersMatch) (e : t.destroyNode h = some t') : t'.CountersMatch := by
  rw [countersMatch_iff] at h0 ⊢
  obtain ⟨a, ha, hn⟩ := h0
  unfold MWTree.destroyNode at e
  rw [ha] at e
  simp only at e
  cases hl : lookup a.chunks h with
  | none => rw [hl] at e; simp at e
  | some n =>
    rw [hl] at e
    simp only at e
    cases hs : a.deallocateNode h with
    | error err => rw [hs] at e; simp at e
    | ok a' =>
      rw [hs] at e
      simp only at e
      have hc := deallocateNode_counts a a' h hs
      have hd := decrementNodeCount_counts _ t' n.scale e
      refine ⟨a', hd.1, ?_⟩
      have h2 := hd.2
      simp only at h2
      omega

theorem run_countersMatch {D : Nat} :
    ∀ (ops : List MWTree.Op) (t t' : MWTree D), t.CountersMatch → t.run ops = some t' →
      t'.CountersMatch := by
  intro ops
  induction ops with
  | nil =>
    intro t t' h0 e
    simp only [MWTree.run, Option.some.injEq] at e
    rw [← e]; exact h0
  | cons op ops ih =>
    intro t t' h0 e
    cases op with
    | createNode n =>
      simp only [MWTree.run] at e
      cases hs : t.createNode n with
      | none => rw [hs] at e; simp at e
      | some p =>
        obtain ⟨h, t1⟩ := p
        rw [hs] at e
        exact ih t1 t' (createNode_countersMatch t t1 n h h0 hs) e
    | destroyNode h =>
      simp only [MWTree.run] at e
      cases hs : t.destroyNode h with
      | none => rw [hs] at e; simp at e
      | some t1 =>
        rw [hs] at e
        exact ih t1 t' (destroyNode_countersMatch t t1 h h0 hs) e
    | clearSquareNorm =>
      simp only [MWTree.run] at e
      exact ih t.clearSquareNorm t' h0 e
    | clearEndNodeTable =>
      simp only [MWTree.run] at e
      exact ih t.clearEndNodeTable t' h0 e
    | setName n =>
      simp only [MWTree.run] at e
      exact ih (t.setName n) t' h0 e

/-- Claim C2. Starting from a tree in which the entries of `nodesAtDepth` and
of `nodesAtNegativeDepth` add up to `getNNodes()`, every sequence of tree
operations that ran to completion, each node creation paired with
`incrementNodeCount(scale)` and each node destruction with
`decrementNodeCount(scale)`, ends in a tree where they add up to `getNNodes()`
again; `clearSquareNorm`, `clearEndNodeTable` and `setName` preserve the
equality, and the getters, being functions of the state, change nothing. -/
theorem counters_sum_eq_getNNodes {D : Nat} (t t' : MWTree D) (ops : List MWTree.Op)
    (h0 : t.getNNodes = some (t.nodesAtDepth.sum + t.nodesAtNegativeDepth.sum))
    (hrun : t.run ops = some t') :
    t'.getNNodes = some (t'.nodesAtDepth.sum + t'.nodesAtNegativeDepth.sum) ∧
    t.clearSquareNorm.getNNodes
      = some (t.clearSquareNorm.nodesAtDepth.sum + t.clearSquareNorm.nodesAtNegativeDepth.sum) ∧
    t.clearEndNodeTable.getNNodes
      = some (t.clearEndNodeTable.nodesAtDepth.sum
          + t.clearEndNodeTable.nodesAtNegativeDepth.sum) ∧
    (∀ n : String, (t.setName n).getNNodes
      = some ((t.setName n).nodesAtDepth.sum + (t.setName n).nodesAtNegativeDepth.sum)) :=
  ⟨run_countersMatch ops t t' h0 hrun, h0, h0, fun _ => h0⟩

/-- Witness of C2: three creations, one destruction and the three operations
that create and destroy nothing, on a tree without nodes. -/
theorem counters_sum_eq_getNNodes_witness :
    sampleTree.getNNodes = some (sampleTree.nodesAtDepth.sum + sampleTree.nodesAtNegativeDepth.sum) ∧
    sampleTree.run [.createNode ⟨0, 4⟩, .createNode ⟨1, 9⟩, .createNode ⟨-1, 1⟩,
      .clearSquareNorm, .destroyNode ⟨0, 1⟩, .setName "f", .clearEndNodeTable]
      = some sampleTreeAfter ∧
    sampleTreeAfter.getNNodes
      = some (sampleTreeAfter.nodesAtDepth.sum + sampleTreeAfter.nodesAtNegativeDepth.sum) ∧
    sampleTreeAfter.getNNodes = some 2 := by
  have hrun : sampleTree.run [.createNode ⟨0, 4⟩, .createNode ⟨1, 9⟩, .createNode ⟨-1, 1⟩,
      .clearSquareNorm, .destroyNode ⟨0, 1⟩, .setName "f", .clearEndNodeTable]
      = some sampleTreeAfter := by decide
  have h := counters_sum_eq_getNNodes sampleTree sampleTreeAfter _ (by decide) hrun
  exact ⟨by decide, hrun, h.1, by decide⟩

/-! ## The square norm cache -/

/-- Claim C3. `calcSquareNorm()` is idempotent: a second call, with no
mutation in between, leaves the tree, and so the value `getSquareNorm()`
returns, as the first call left it; `getSquareNorm()` returns the stored
`squareNorm` field: it is a function of that field alone, so reading it
recomputes nothing, whatever the nodes hold, and changes no state. -/
theorem calcSquareNorm_idempotent {D : Nat} (t : MWTree D) :
    t.calcSquareNorm.calcSquareNorm.getSquareNorm = t.calcSquareNorm.getSquareNorm ∧
    t.calcSquareNorm.calcSquareNorm = t.calcSquareNorm ∧
    t.getSquareNorm = t.squareNorm ∧
    (∀ a : Option SerialTree,
      ({ t with nodeAllocator_p := a } : MWTree D).getSquareNorm = t.getSquareNorm) := by
  have key : t.calcSquareNorm.calcSquareNorm = t.calcSquareNorm := by
    unfold MWTree.calcSquareNorm
    by_cases h : t.squareNorm = -1
    · simp only [h, if_true]
      split
      · rfl
      · rfl
    · simp only [h, if_false]
  exact ⟨by rw [key], key, rfl, fun _ => rfl⟩

/-- Witness of C3: with the cache cleared the first call computes
`4 + 1 + 2 + 3`, and the second call leaves it. -/
theorem calcSquareNorm_idempotent_witness :
    sampleTreeWithNodes.clearSquareNorm.getSquareNorm = -1 ∧
    sampleTreeWithNodes.clearSquareNorm.calcSquareNorm.getSquareNorm = 10 ∧
    sampleTreeWithNodes.clearSquareNorm.calcSquareNorm.calcSquareNorm.getSquareNorm = 10 := by
  have h := calcSquareNorm_idempotent sampleTreeWithNodes.clearSquareNorm
  have h10 : sampleTreeWithNodes.clearSquareNorm.calcSquareNorm.getSquareNorm = 10 := by
    simp only [MWTree.getSquareNorm, MWTree.calcSquareNorm, MWTree.clearSquareNorm,
      sampleTreeWithNodes, MWTree.allNodes, nodesIn, nodesInChunk, if_true, List.map,
      List.cons_append, List.nil_append, List.append_nil, List.sum_cons, List.sum_nil]
    norm_num
  exact ⟨rfl, h10, by rw [h.1]; exact h10⟩

/-- Claim C4. After `clearSquareNorm()` the value `getSquareNorm()` returns is
exactly `-1`; it is strictly negative, so it differs from every sum of
non-negative node contributions; and `clearSquareNorm()` is idempotent. -/
theorem clearSquareNorm_sentinel {D : Nat} (t : MWTree D) (contributions : List ℚ)
    (hnn : ∀ c ∈ contributions, 0 ≤ c) :
    t.clearSquareNorm.getSquareNorm = -1 ∧
    t.clearSquareNorm.getSquareNorm < 0 ∧
    0 ≤ contributions.sum ∧
    contributions.sum ≠ t.clearSquareNorm.getSquareNorm ∧
    t.clearSquareNorm.clearSquareNorm = t.clearSquareNorm := by
  have hs : 0 ≤ contributions.sum := List.sum_nonneg hnn
  have h1 : t.clearSquareNorm.getSquareNorm = -1 := rfl
  refine ⟨h1, by rw [h1]; norm_num, hs, ?_, rfl⟩
  rw [h1]
  intro h
  rw [h] at hs
  norm_num at hs

/-- Witness of C4: the contributions 4, 1, 2 and 3 of the sample tree. -/
theorem clearSquareNorm_sentinel_witness :
    (∀ c ∈ sampleTreeWithNodes.allNodes.map MWNode.squareNorm, (0 : ℚ) ≤ c) ∧
    sampleTreeWithNodes.getSquareNorm = 10 ∧
    sampleTreeWithNodes.clearSquareNorm.getSquareNorm = -1 ∧
    (sampleTreeWithNodes.allNodes.map MWNode.squareNorm).sum
      ≠ sampleTreeWithNodes.clearSquareNorm.getSquareNorm := by
  have hnn : ∀ c ∈ sampleTreeWithNodes.allNodes.map MWNode.squareNorm, (0 : ℚ) ≤ c := by
    intro c hc
    simp only [sampleTreeWithNodes, MWTree.allNodes, nodesIn, nodesInChunk, List.map,
      List.append, List.cons_append, List.nil_append, List.mem_cons, List.mem_singleton,
      List.not_mem_nil, or_false] at hc
    rcases hc with h | h | h | h <;> rw [h] <;> norm_num
  have h := clearSquareNorm_sentinel sampleTreeWithNodes _ hnn
  exact ⟨hnn, rfl, h.1, h.2.2.2.1⟩

/-- Claim C5. `clearEndNodeTable()` drops the end-node table and nothing else:
afterwards `getNEndNodes()` is `0`, while the root box, `nodesAtDepth`,
`nodesAtNegativeDepth`, the cached square norm, the name, the allocator and
its node count are unchanged. -/
theorem clearEndNodeTable_frame {D : Nat} (t : MWTree D) :
    t.clearEndNodeTable.getNEndNodes = 0 ∧
    t.clearEndNodeTable.getEndNodeTable = [] ∧
    t.clearEndNodeTable.getRootBox = t.getRootBox ∧
    t.clearEndNodeTable.nodesAtDepth = t.nodesAtDepth ∧
    t.clearEndNodeTable.nodesAtNegativeDepth = t.nodesAtNegativeDepth ∧
    t.clearEndNodeTable.getSquareNorm = t.getSquareNorm ∧
    t.clearEndNodeTable.getName = t.getName ∧
    t.clearEndNodeTable.getNodeAllocator = t.getNodeAllocator ∧
    t.clearEndNodeTable.getNNodes = t.getNNodes ∧
    t.clearEndNodeTable = { t with endNodeTable := [] } := by
  refine ⟨?_, rfl, rfl, rfl, rfl, rfl, rfl, rfl, rfl, rfl⟩
  simp [MWTree.getNEndNodes, MWTree.clearEndNodeTable, toInt]

/-- Witness of C5: the sample tree has three end nodes before the call, none
after it, and its four nodes stay allocated. -/
theorem clearEndNodeTable_frame_witness :
    sampleTreeWithNodes.getNEndNodes = 3 ∧
    sampleTreeWithNodes.clearEndNodeTable.getNEndNodes = 0 ∧
    sampleTreeWithNodes.clearEndNodeTable.getNNodes = some 4 ∧
    sampleTreeWithNodes.clearEndNodeTable.nodesAtDepth = [2, 2] :=
  ⟨by decide, (clearEndNodeTable_frame sampleTreeWithNodes).1, by decide, rfl⟩

/-! ## The shared-memory handle -/

/-- Counterexample to C6: in a build without `MRCPP_HAS_MPI` an allocator
constructed with the non-null context at address 7 stores the null handle. -/
theorem shMem_without_MPI_is_null :
    (SerialTree.new false (some 1) (some 7)).shMem = none ∧
    (SerialTree.new false (some 1) (some 7)).shMem ≠ some 7 := by
  constructor
  · rfl
  · decide

/-- Claim C6, amended. In a build with `MRCPP_HAS_MPI` the stored handle
`shMem` is the context `mem` the allocator was constructed with; in a build
without it `shMem` is null whatever `mem` is; and with a null context `shMem`
is null in both builds. -/
theorem shMem_of_new (tree mem : Ptr) :
    (SerialTree.new true tree mem).shMem = mem ∧
    (SerialTree.new false tree mem).shMem = none ∧
    (∀ hasMPI : Bool, (SerialTree.new hasMPI tree none).shMem = none) := by
  refine ⟨rfl, rfl, ?_⟩
  intro hasMPI
  cases hasMPI <;> rfl

/-! ## Sizes and indexed access -/

theorem toInt_of_range (x : Int) (h : INT_MIN ≤ x ∧ x ≤ INT_MAX) : toInt x = x := by
  unfold INT_MIN INT_MAX at h
  unfold toInt
  omega

theorem toNat_lt_of_lt_toInt (i : Int) (n : Nat) (h0 : 0 ≤ i) (h : i < toInt n) :
    i.toNat < n := by
  unfold toInt at h
  omega

theorem get?_of_lt_toInt {α : Type} (l : List α) (i : Int) (h0 : 0 ≤ i)
    (h : i < toInt l.length) : ∃ a, l.get? i.toNat = some a := by
  have hlt := toNat_lt_of_lt_toInt i l.length h0 h
  exact ⟨l.get ⟨i.toNat, hlt⟩, List.get?_eq_get hlt⟩

theorem some_get?_range {α : Type} (l : List α) (i : Int) (a : α)
    (e : (if 0 ≤ i then l.get? i.toNat else none) = some a) :
    0 ≤ i ∧ i < (l.length : Int) := by
  by_cases h0 : 0 ≤ i
  · rw [if_pos h0] at e
    obtain ⟨hlt, _⟩ := List.get?_eq_some.mp e
    exact ⟨h0, by omega⟩
  · rw [if_neg h0] at e
    simp at e

/-- Claim C7. For a tree of dimension `D` in `{1, 2, 3}` and polynomial order
`k >= 0`, whose constant `kp1_d` is the `(k + 1)^D` its constructor derives
from the order (the constructor is in `MWTree.cpp`, not among the sources):
`getKp1() = k + 1`, `getTDim() = 2^D` (the shift does not overflow), the block
size `getKp1_d() * getTDim()` is `(k + 1)^D * 2^D`, and `getDim()` is `D`. -/
theorem coefficient_block_size {D : Nat} (t : MWTree D) (k : Int)
    (hD : D = 1 ∨ D = 2 ∨ D = 3) (hk : 0 ≤ k) (horder : t.getOrder = k)
    (hkp1_d : t.kp1_d.val = (k + 1) ^ D) :
    t.getKp1 = k + 1 ∧
    t.getTDim = 2 ^ D ∧
    t.getKp1_d * t.getTDim = (k + 1) ^ D * 2 ^ D ∧
    t.getDim = D := by
  have hrange := t.kp1_d.property
  rw [hkp1_d] at hrange
  have hle : k + 1 ≤ (k + 1) ^ D := by
    rcases hD with h | h | h <;> subst h
    · simp
    · nlinarith
    · nlinarith [sq_nonneg (k + 1), mul_nonneg hk hk]
  have hkp1 : t.getKp1 = k + 1 := by
    unfold MWTree.getKp1
    unfold MWTree.getOrder at horder
    rw [horder]
    apply toInt_of_range
    unfold INT_MIN INT_MAX at *
    constructor <;> omega
  have htdim : t.getTDim = 2 ^ D := by
    rcases hD with h | h | h <;> subst h <;> rfl
  have hdim : t.getDim = D := by
    rcases hD with h | h | h <;> subst h <;> rfl
  refine ⟨hkp1, htdim, ?_, hdim⟩
  rw [htdim]
  unfold MWTree.getKp1_d
  rw [hkp1_d]

/-- Witness of C7: dimension 3 and order 2 give 3, 8, 27 * 8 and 3. -/
theorem coefficient_block_size_witness :
    sampleTree.getOrder = 2 ∧ sampleTree.kp1_d.val = (2 + 1) ^ 3 ∧
    sampleTree.getKp1 = 3 ∧ sampleTree.getTDim = 8 ∧
    sampleTree.getKp1_d * sampleTree.getTDim = 216 ∧ sampleTree.getDim = 3 := by
  have h := coefficient_block_size sampleTree 2 (Or.inr (Or.inr rfl)) (by decide) rfl rfl
  exact ⟨rfl, rfl, h.1, h.2.1, by rw [h.2.2.1]; norm_num, h.2.2.2⟩

/-- Claim C8. `getNRootNodes()` is `rootBox.size()`; for every `i` with
`0 <= i < getNRootNodes()` the box has a node at `i` and `getRootMWNode(i)`
returns it, as `rootBox.getNode(i)` does; for every `i` with
`0 <= i < getNEndNodes()` the end-node table has an entry at `i` (the lookup
cannot fail) and `getEndMWNode(i)` returns the node that entry refers to; the
const overloads return the same nodes; and an access that returns a node has
its index inside the container. -/
theorem indexed_node_access {D : Nat} (t : MWTree D) :
    t.getNRootNodes = t.rootBox.size ∧
    (∀ i : Int, 0 ≤ i → i < t.getNRootNodes →
      ∃ h, t.rootBox.nodes.get? i.toNat = some h ∧ t.rootBox.getNode i = some h ∧
        t.getRootMWNode i = some h ∧ t.getRootMWNode_const i = some h) ∧
    (∀ i : Int, 0 ≤ i → i < t.getNEndNodes →
      ∃ h, t.endNodeTable.get? i.toNat = some h ∧
        t.getEndMWNode i = some h ∧ t.getEndMWNode_const i = some h) ∧
    (∀ i : Int, t.getRootMWNode i = t.rootBox.getNode i ∧
      t.getRootMWNode_const i = t.getRootMWNode i ∧
      t.getEndMWNode_const i = t.getEndMWNode i) ∧
    (∀ (i : Int) (h : Handle), t.getRootMWNode i = some h →
      0 ≤ i ∧ i < (t.rootBox.nodes.length : Int)) ∧
    (∀ (i : Int) (h : Handle), t.getEndMWNode i = some h →
      0 ≤ i ∧ i < (t.endNodeTable.length : Int)) := by
  refine ⟨rfl, ?_, ?_, fun i => ⟨rfl, rfl, rfl⟩, ?_, ?_⟩
  · intro i h0 hi
    obtain ⟨h, hh⟩ := get?_of_lt_toInt t.rootBox.nodes i h0 hi
    have hb : t.rootBox.getNode i = some h := by
      unfold NodeBox.getNode
      rw [if_pos h0]; exact hh
    exact ⟨h, hh, hb, hb, hb⟩
  · intro i h0 hi
    obtain ⟨h, hh⟩ := get?_of_lt_toInt t.endNodeTable i h0 hi
    have he : t.getEndMWNode i = some h := by
      unfold MWTree.getEndMWNode
      rw [if_pos h0]; exact hh
    exact ⟨h, hh, he, he⟩
  · intro i h e
    exact some_get?_range t.rootBox.nodes i h e
  · intro i h e
    exact some_get?_range t.endNodeTable i h e

/-- Witness of C8: the second root node and the third end node of the sample
tree. -/
theorem indexed_node_access_witness :
    sampleTreeWithNodes.getNRootNodes = 2 ∧ sampleTreeWithNodes.getNEndNodes = 3 ∧
    sampleTreeWithNodes.getRootMWNode 1 = some ⟨0, 1⟩ ∧
    sampleTreeWithNodes.getEndMWNode 2 = some ⟨1, 1⟩ ∧
    (∃ h, sampleTreeWithNodes.endNodeTable.get? (2 : Int).toNat = some h ∧
      sampleTreeWithNodes.getEndMWNode 2 = some h ∧
      sampleTreeWithNodes.getEndMWNode_const 2 = some h) :=
  ⟨by decide, by decide, by decide, by decide,
    (indexed_node_access sampleTreeWithNodes).2.2.1 2 (by decide) (by decide)⟩

/-! ## Construction of a HelmholtzOperator -/

/-- Claim C9. For either constructor, whatever the called code does, the
global print level after the constructor is the level `p` before it; the
level is `0` at the entry of the first call of the body; and when the called
code leaves the print level alone it is `0` at the entry of every call of the
body, the kernel construction and `initializeOperator` among them. -/
theorem printLevel_restored (x : Externals) (mra : MultiResolutionAnalysis) (m prec : ℚ)
    (root reach p : Int) :
    (HelmholtzOperator.new x mra m prec ⟨p⟩).printer.printLevel = p ∧
    (HelmholtzOperator.newRootReach x mra m prec root reach ⟨p⟩).printer.printLevel = p ∧
    ((HelmholtzOperator.new x mra m prec ⟨p⟩).calls.map Prod.snd).head? = some 0 ∧
    ((HelmholtzOperator.newRootReach x mra m prec root reach ⟨p⟩).calls.map Prod.snd).head?
      = some 0 ∧
    (x.KeepsPrintLevel →
      (HelmholtzOperator.new x mra m prec ⟨p⟩).calls.map Prod.snd = [0, 0, 0, 0, 0] ∧
      (HelmholtzOperator.newRootReach x mra m prec root reach ⟨p⟩).calls.map Prod.snd
        = [0, 0, 0, 0, 0]) := by
  refine ⟨rfl, rfl, rfl, rfl, ?_⟩
  intro hx
  obtain ⟨h1, h2, h3, h4, h5⟩ := hx
  simp [HelmholtzOperator.new, HelmholtzOperator.newRootReach, HelmholtzOperator.body,
    Printer.setPrintLevel, h1, h2, h3, h4, h5]

/-- Witness of C9: from print level 5, with called code that leaves the level
alone and with called code that raises it at every call. -/
theorem printLevel_restored_witness :
    sampleExternals.KeepsPrintLevel ∧
    (HelmholtzOperator.new sampleExternals sampleMRA 1 (1 / 1000) ⟨5⟩).calls.map Prod.snd
      = [0, 0, 0, 0, 0] ∧
    (HelmholtzOperator.new sampleExternals sampleMRA 1 (1 / 1000) ⟨5⟩).printer.printLevel = 5 ∧
    (HelmholtzOperator.new noisyExternals sampleMRA 1 (1 / 1000) ⟨5⟩).calls.map Prod.snd
      = [0, 1, 2, 3, 4] ∧
    (HelmholtzOperator.new noisyExternals sampleMRA 1 (1 / 1000) ⟨5⟩).printer.printLevel = 5 := by
  have hk : sampleExternals.KeepsPrintLevel :=
    ⟨fun _ _ _ => rfl, fun _ _ => rfl, fun _ _ _ _ _ => rfl, fun _ _ => rfl, fun _ _ => rfl⟩
  have h := printLevel_restored sampleExternals sampleMRA 1 (1 / 1000) 0 0 5
  have h' := printLevel_restored noisyExternals sampleMRA 1 (1 / 1000) 0 0 5
  exact ⟨hk, (h.2.2.2.2 hk).1, h.1, rfl, h'.1⟩

/-- Claim C10. For a build precision `prec > 0` and an exponent `m`, both
constructors store `mu = m` and keep `prec` as the build precision; the
kernel is built with `mu` and the kernel precision, which is `prec / 10` in
the `(mra, m, prec)` constructor and `prec / 100` in the
`(mra, m, prec, root, reach)` constructor, both strictly smaller than `prec`,
different from each other, the first ten times the second; and in both the
last two calls are `rescale(3)` and then `initializeOperator` on the kernel
so rescaled. -/
theorem kernel_precision (x : Externals) (mra : MultiResolutionAnalysis) (m prec : ℚ)
    (root reach : Int) (g : Printer) (hprec : 0 < prec) :
    (HelmholtzOperator.new x mra m prec g).oper.mu = m ∧
    (HelmholtzOperator.newRootReach x mra m prec root reach g).oper.mu = m ∧
    (HelmholtzOperator.new x mra m prec g).oper.base.build_prec = prec ∧
    (HelmholtzOperator.newRootReach x mra m prec root reach g).oper.base.build_prec = prec ∧
    (HelmholtzOperator.new x mra m prec g).oper.base.kern_prec = prec / 10 ∧
    (HelmholtzOperator.newRootReach x mra m prec root reach g).oper.base.kern_prec
      = prec / 100 ∧
    (HelmholtzOperator.new x mra m prec g).oper.kernel.epsilon = prec / 10 ∧
    (HelmholtzOperator.newRootReach x mra m prec root reach g).oper.kernel.epsilon
      = prec / 100 ∧
    (HelmholtzOperator.new x mra m prec g).oper.kernel.mu = m ∧
    (HelmholtzOperator.newRootReach x mra m prec root reach g).oper.kernel.mu = m ∧
    (HelmholtzOperator.new x mra m prec g).oper.kernel.epsilon < prec ∧
    (HelmholtzOperator.newRootReach x mra m prec root reach g).oper.kernel.epsilon < prec ∧
    (HelmholtzOperator.new x mra m prec g).oper.kernel.epsilon
      ≠ (HelmholtzOperator.newRootReach x mra m prec root reach g).oper.kernel.epsilon ∧
    (HelmholtzOperator.new x mra m prec g).oper.kernel.epsilon
      = 10 * (HelmholtzOperator.newRootReach x mra m prec root reach g).oper.kernel.epsilon ∧
    (HelmholtzOperator.new x mra m prec g).oper.kernel.rescaled = [3] ∧
    (HelmholtzOperator.newRootReach x mra m prec root reach g).oper.kernel.rescaled = [3] ∧
    ((HelmholtzOperator.new x mra m prec g).calls.map Prod.fst).drop 3
      = [.rescale 3, .initializeOperator (HelmholtzOperator.new x mra m prec g).oper.kernel] ∧
    ((HelmholtzOperator.newRootReach x mra m prec root reach g).calls.map Prod.fst).drop 3
      = [.rescale 3, .initializeOperator
          (HelmholtzOperator.newRootReach x mra m prec root reach g).oper.kernel] := by
  have e1 : (HelmholtzOperator.new x mra m prec g).oper.kernel.epsilon = prec / 10 := rfl
  have e2 : (HelmholtzOperator.newRootReach x mra m prec root reach g).oper.kernel.epsilon
      = prec / 100 := rfl
  refine ⟨rfl, rfl, rfl, rfl, rfl, rfl, e1, e2, rfl, rfl, ?_, ?_, ?_, ?_, rfl, rfl, rfl, rfl⟩
  · rw [e1]; linarith
  · rw [e2]; linarith
  · rw [e1, e2]; intro h; linarith
  · rw [e1, e2]; ring

/-- Witness of C10: `prec = 1/1000` gives the kernel precisions `1/10000` and
`1/100000`. -/
theorem kernel_precision_witness :
    (0 : ℚ) < 1 / 1000 ∧
    (HelmholtzOperator.new sampleExternals sampleMRA 2 (1 / 1000) ⟨5⟩).oper.kernel.epsilon
      = 1 / 10000 ∧
    (HelmholtzOperator.newRootReach sampleExternals sampleMRA 2 (1 / 1000) 0 3 ⟨5⟩).oper.kernel.epsilon
      = 1 / 100000 ∧
    (HelmholtzOperator.new sampleExternals sampleMRA 2 (1 / 1000) ⟨5⟩).oper.mu = 2 := by
  have hp : (0 : ℚ) < 1 / 1000 := by norm_num
  have h := kernel_precision sampleExternals sampleMRA 2 (1 / 1000) 0 3 ⟨5⟩ hp
  refine ⟨hp, ?_, ?_, h.1⟩
  · rw [h.2.2.2.2.2.2.1]; norm_num
  · rw [h.2.2.2.2.2.2.2.1]; norm_num

end mrcpp
